import Mathlib

/-!
Shallow embedding of `Theron::Detail::NonBlockingQueue`
(src/Include/Theron/Detail/Scheduler/NonBlockingQueue.h) and proofs of the
spec's claims about it.

Modelling choices:
* `Mailbox` items are identified by address only; the code never inspects
  them, so they are modelled as `Nat` identities.
* `Queue<Mailbox>` (an external collaborator: intrusive FIFO, push at tail,
  pop at head) is modelled as a `List Nat` with append at the tail.
* The `SpinLock` only serializes access to the shared queue; in the
  sequential interleaving model each `Push`/`Pop` is a single atomic step,
  so the lock itself has no residual state to model.
* Stateful methods become explicit state-passing functions.
-/

namespace Theron
namespace Detail

/-- Modelled from the spec: the yield-curve functions of
`Detail::YieldPolicy` (`YieldPolite`/`YieldStrong`/`YieldAggressive`),
whose header is not among the sources.  The core only stores and compares
which curve a context uses, so they are modelled as an enumeration. -/
inductive YieldFunc where
  | YieldPolite
  | YieldStrong
  | YieldAggressive
deriving DecidableEq

/-- Modelled from the spec: the `YieldStrategy` enumeration
(`Theron/YieldStrategy.h` is not among the sources).  The spec recognizes
the values Polite, Strong and Aggressive and says any other value defaults
to Polite; the extra constructor stands for all unrecognized values. -/
inductive YieldStrategy where
  | YIELD_STRATEGY_POLITE
  | YIELD_STRATEGY_STRONG
  | YIELD_STRATEGY_AGGRESSIVE
  | YIELD_STRATEGY_UNRECOGNIZED (v : Nat)
deriving DecidableEq

/-- Modelled from the spec: `Detail::YieldImplementation`
(`YieldImplementation.h` is not among the sources).  The spec's contract:
it holds a yield function and an escalation counter; `Reset` returns the
policy to its least-escalated state and `Execute` performs the current
escalation step and advances toward the next. -/
structure YieldImplementation where
  mYieldFunction : YieldFunc
  mCounter : Nat
deriving DecidableEq

/-- Modelled from the spec: default-constructed yield state, at the
least-escalated (baseline) step. -/
def YieldImplementation.init : YieldImplementation :=
  { mYieldFunction := YieldFunc.YieldPolite, mCounter := 0 }

/-- Modelled from the spec: installs the chosen yield curve. -/
def YieldImplementation.SetYieldFunction (y : YieldImplementation)
    (f : YieldFunc) : YieldImplementation :=
  { y with mYieldFunction := f }

/-- Modelled from the spec: returns the policy to its least-escalated
(baseline) state; called on every successful pop. -/
def YieldImplementation.Reset (y : YieldImplementation) : YieldImplementation :=
  { y with mCounter := 0 }

/-- Modelled from the spec: performs the current escalation step and
advances the internal state one step; called on every failed pop. -/
def YieldImplementation.Execute (y : YieldImplementation) : YieldImplementation :=
  { y with mCounter := y.mCounter + 1 }

/-- Embeds `NonBlockingQueue::ContextType`: per-accessor context with the shared
flag, the private local work queue and the yield-strategy state. -/
structure ContextType where
  mShared : Bool
  mLocalWorkQueue : List Nat
  mYield : YieldImplementation
deriving DecidableEq

/-- The `ContextType()` constructor: `mShared(false)`, empty local queue,
default-constructed yield state. -/
def ContextType.init : ContextType :=
  { mShared := false, mLocalWorkQueue := [], mYield := YieldImplementation.init }

/-- The `NonBlockingQueue` class: the scheduler-wide state, holding the configured
yield strategy and the shared work queue. -/
structure NonBlockingQueue where
  mYieldStrategy : YieldStrategy
  mSharedWorkQueue : List Nat
deriving DecidableEq

namespace NonBlockingQueue

/-- The `NonBlockingQueue(yieldStrategy)` constructor: stores the strategy;
the shared work queue is default-constructed empty. -/
def construct (yieldStrategy : YieldStrategy) : NonBlockingQueue :=
  { mYieldStrategy := yieldStrategy, mSharedWorkQueue := [] }

/-- Embeds `NonBlockingQueue::InitializeSharedContext`: marks the context as the
shared context. -/
def InitializeSharedContext (context : ContextType) : ContextType :=
  { context with mShared := true }

/-- Embeds `NonBlockingQueue::InitializeWorkerContext`: clears the shared flag and
installs the yield curve selected by the scheduler's strategy; the `switch`
sends every unrecognized value (the `default` label) to the polite curve. -/
def InitializeWorkerContext (q : NonBlockingQueue) (context : ContextType) :
    ContextType :=
  { context with
      mShared := false
      mYield := context.mYield.SetYieldFunction
        (match q.mYieldStrategy with
          | YieldStrategy.YIELD_STRATEGY_POLITE => YieldFunc.YieldPolite
          | YieldStrategy.YIELD_STRATEGY_STRONG => YieldFunc.YieldStrong
          | YieldStrategy.YIELD_STRATEGY_AGGRESSIVE => YieldFunc.YieldAggressive
          | YieldStrategy.YIELD_STRATEGY_UNRECOGNIZED _ => YieldFunc.YieldPolite) }

/-- Embeds `NonBlockingQueue::ReleaseSharedContext`: the body is empty. -/
def ReleaseSharedContext (q : NonBlockingQueue) (context : ContextType) :
    NonBlockingQueue × ContextType :=
  (q, context)

/-- Embeds `NonBlockingQueue::ReleaseWorkerContext`: the body is empty. -/
def ReleaseWorkerContext (q : NonBlockingQueue) (context : ContextType) :
    NonBlockingQueue × ContextType :=
  (q, context)

/-- Embeds `NonBlockingQueue::Empty`: a non-shared context first checks its local
queue; then the shared queue is checked under the spinlock. -/
def Empty (q : NonBlockingQueue) (context : ContextType) : Bool :=
  if !context.mShared && !context.mLocalWorkQueue.isEmpty then
    false
  else
    q.mSharedWorkQueue.isEmpty

/-- Embeds `NonBlockingQueue::WakeAll`: the body is empty (threads never block). -/
def WakeAll (q : NonBlockingQueue) : NonBlockingQueue :=
  q

/-- Embeds `NonBlockingQueue::Push`: with the `localThread` hint and a non-shared
context the mailbox goes to the context's local queue; otherwise it is
appended to the shared queue under the spinlock. -/
def Push (q : NonBlockingQueue) (context : ContextType) (mailbox : Nat)
    (localThread : Bool) : NonBlockingQueue × ContextType :=
  if localThread && !context.mShared then
    (q, { context with mLocalWorkQueue := context.mLocalWorkQueue ++ [mailbox] })
  else
    ({ q with mSharedWorkQueue := q.mSharedWorkQueue ++ [mailbox] }, context)

/-- Embeds `NonBlockingQueue::Pop`: only when the local queue is empty is the
shared queue examined (under the spinlock); a retrieved mailbox resets the
context's yield state, and a failed pop executes one backoff step.
Returns (popped mailbox or none, new queue state, new context state). -/
def Pop (q : NonBlockingQueue) (context : ContextType) :
    Option Nat × NonBlockingQueue × ContextType :=
  match context.mLocalWorkQueue with
  | [] =>
    match q.mSharedWorkQueue with
    | [] => (none, q, { context with mYield := context.mYield.Execute })
    | m :: rest =>
        (some m, { q with mSharedWorkQueue := rest },
          { context with mYield := context.mYield.Reset })
  | m :: rest =>
      (some m, q,
        { context with mLocalWorkQueue := rest, mYield := context.mYield.Reset })

end NonBlockingQueue

/-!
System-level model: one scheduler instance accessed through a finite list
of contexts (context 0 is the shared context, contexts 1..n are worker
contexts).  A trace is a sequence of whole `Push`/`Pop` operations; the
spinlock makes every such operation atomic with respect to the shared
queue, so arbitrary interleavings of whole operations model the concurrent
executions the spec talks about.
-/

/-- One atomic operation of a trace: a push at context `i` with a mailbox
identity and the local-affinity hint, or a pop at context `i`. -/
inductive Op where
  | push (i : Nat) (item : Nat) (localThread : Bool)
  | pop (i : Nat)
deriving DecidableEq

/-- The context index an operation acts on. -/
def Op.index : Op → Nat
  | Op.push i _ _ => i
  | Op.pop i => i

/-- Whole-system state: the scheduler plus all accessor contexts. -/
structure SysState where
  queue : NonBlockingQueue
  contexts : List ContextType
deriving DecidableEq

/-- Run one operation; a pop's result is tagged with the context index
that performed it.  An operation naming a nonexistent context is a no-op. -/
def runOp (s : SysState) : Op → SysState × Option (Nat × Nat)
  | Op.push i item lt =>
    match s.contexts[i]? with
    | none => (s, none)
    | some c =>
      let r := NonBlockingQueue.Push s.queue c item lt
      (⟨r.1, s.contexts.set i r.2⟩, none)
  | Op.pop i =>
    match s.contexts[i]? with
    | none => (s, none)
    | some c =>
      let r := NonBlockingQueue.Pop s.queue c
      (⟨r.2.1, s.contexts.set i r.2.2⟩, r.1.map (fun m => (i, m)))

/-- Run a trace, collecting all successful pop results in order. -/
def runTrace (s : SysState) : List Op → SysState × List (Nat × Nat)
  | [] => (s, [])
  | op :: ops =>
    let r := runOp s op
    let rest := runTrace r.1 ops
    (rest.1, r.2.toList ++ rest.2)

/-- The mailbox identities pushed by a trace, in order. -/
def pushedOf : List Op → List Nat
  | [] => []
  | Op.push _ item _ :: ops => item :: pushedOf ops
  | Op.pop _ :: ops => pushedOf ops

/-- Whether every operation of a trace addresses one of the `n` contexts. -/
def validTrace (n : Nat) (t : List Op) : Bool :=
  t.all (fun op => decide (Op.index op < n))

/-- Whether every push of the mailbox identity `item` in the trace is a
local-affinity push performed at context `i`. -/
def localOnlyPushes (i item : Nat) (t : List Op) : Bool :=
  t.all (fun op =>
    match op with
    | Op.push j x lt => decide (x ≠ item) || (decide (j = i) && lt)
    | Op.pop _ => true)

/-- The multiset of mailbox identities held in the local queues of a list
of contexts. -/
def localsSum (l : List ContextType) : Multiset Nat :=
  (l.map (fun c => (c.mLocalWorkQueue : Multiset Nat))).sum

/-- The multiset of all mailbox identities currently queued anywhere:
in the shared queue or in any context's local queue. -/
def sysItems (s : SysState) : Multiset Nat :=
  (s.queue.mSharedWorkQueue : Multiset Nat) + localsSum s.contexts

/-- Push a whole list of mailboxes through `Push`, in order, with a fixed
local-affinity hint. -/
def pushList (q : NonBlockingQueue) (c : ContextType) (items : List Nat)
    (lt : Bool) : NonBlockingQueue × ContextType :=
  match items with
  | [] => (q, c)
  | item :: rest =>
    let r := NonBlockingQueue.Push q c item lt
    pushList r.1 r.2 rest lt

/-- Perform `k` consecutive `Pop` calls on one context, collecting the
successfully retrieved mailboxes in order. -/
def popN (q : NonBlockingQueue) (c : ContextType) :
    Nat → List Nat × NonBlockingQueue × ContextType
  | 0 => ([], q, c)
  | Nat.succ k =>
    let r := NonBlockingQueue.Pop q c
    let rest := popN r.2.1 r.2.2 k
    (r.1.toList ++ rest.1, rest.2)

/-- A mailbox identity is absent from the shared queue and from every local
queue other than context `i`'s. -/
def itemFree (s : SysState) (i item : Nat) : Prop :=
  item ∉ s.queue.mSharedWorkQueue ∧
    ∀ j, j ≠ i → ∀ c, s.contexts[j]? = some c → item ∉ c.mLocalWorkQueue

/-- Initial system: a freshly constructed scheduler, one initialized shared
context (index 0) and `n` initialized worker contexts (indices 1..n). -/
def initialSys (strategy : YieldStrategy) (n : Nat) : SysState :=
  let q := NonBlockingQueue.construct strategy
  { queue := q
    contexts := NonBlockingQueue.InitializeSharedContext ContextType.init ::
      List.replicate n (NonBlockingQueue.InitializeWorkerContext q ContextType.init) }

/-!
Per-operation claims.
-/

/-- C2: `Pop(ctx)` returns the head of `ctx`'s private queue whenever it is
non-empty, leaving the scheduler (shared queue) untouched; otherwise it
returns the head of the shared queue when that is non-empty; and when both
queues are empty it returns `none` and leaves both queues unchanged. -/
theorem c2_pop_retrieval (q : NonBlockingQueue) (c : ContextType) :
    (∀ m rest, c.mLocalWorkQueue = m :: rest →
      (NonBlockingQueue.Pop q c).1 = some m ∧
      (NonBlockingQueue.Pop q c).2.1 = q ∧
      (NonBlockingQueue.Pop q c).2.2.mLocalWorkQueue = rest) ∧
    (∀ m rest, c.mLocalWorkQueue = [] → q.mSharedWorkQueue = m :: rest →
      (NonBlockingQueue.Pop q c).1 = some m ∧
      (NonBlockingQueue.Pop q c).2.1.mSharedWorkQueue = rest ∧
      (NonBlockingQueue.Pop q c).2.2.mLocalWorkQueue = []) ∧
    (c.mLocalWorkQueue = [] → q.mSharedWorkQueue = [] →
      (NonBlockingQueue.Pop q c).1 = none ∧
      (NonBlockingQueue.Pop q c).2.1 = q ∧
      (NonBlockingQueue.Pop q c).2.2.mLocalWorkQueue = []) := by
  refine ⟨?_, ?_, ?_⟩
  · intro m rest hl
    simp [NonBlockingQueue.Pop, hl]
  · intro m rest hl hs
    simp [NonBlockingQueue.Pop, hl, hs]
  · intro hl hs
    simp [NonBlockingQueue.Pop, hl, hs]

/-- Witness for C2: concrete pops exercising all three branches. -/
theorem c2_pop_retrieval_witness :
    ((NonBlockingQueue.Pop ⟨YieldStrategy.YIELD_STRATEGY_POLITE, [2]⟩
        ⟨false, [1], YieldImplementation.init⟩).1 = some 1 ∧
      (NonBlockingQueue.Pop ⟨YieldStrategy.YIELD_STRATEGY_POLITE, [2]⟩
        ⟨false, [1], YieldImplementation.init⟩).2.1 =
        ⟨YieldStrategy.YIELD_STRATEGY_POLITE, [2]⟩ ∧
      (NonBlockingQueue.Pop ⟨YieldStrategy.YIELD_STRATEGY_POLITE, [2]⟩
        ⟨false, [1], YieldImplementation.init⟩).2.2.mLocalWorkQueue = []) ∧
    ((NonBlockingQueue.Pop ⟨YieldStrategy.YIELD_STRATEGY_POLITE, [2]⟩
        ⟨false, [], YieldImplementation.init⟩).1 = some 2) ∧
    ((NonBlockingQueue.Pop ⟨YieldStrategy.YIELD_STRATEGY_POLITE, []⟩
        ⟨false, [], YieldImplementation.init⟩).1 = none) :=
  ⟨(c2_pop_retrieval ⟨YieldStrategy.YIELD_STRATEGY_POLITE, [2]⟩
      ⟨false, [1], YieldImplementation.init⟩).1 1 [] rfl,
    ((c2_pop_retrieval ⟨YieldStrategy.YIELD_STRATEGY_POLITE, [2]⟩
      ⟨false, [], YieldImplementation.init⟩).2.1 2 [] rfl rfl).1,
    ((c2_pop_retrieval ⟨YieldStrategy.YIELD_STRATEGY_POLITE, []⟩
      ⟨false, [], YieldImplementation.init⟩).2.2 rfl rfl).1⟩

/-- C3: `Push(ctx, item, preferLocal)` appends `item` at the tail of the
context's private queue exactly when `preferLocal` holds and the context is
not the shared one (leaving the scheduler untouched); in every other case
it appends at the tail of the shared queue (leaving the context untouched),
so no push ever places an item in more than one queue. -/
theorem c3_push_placement (q : NonBlockingQueue) (c : ContextType)
    (item : Nat) (lt : Bool) :
    (lt = true → c.mShared = false →
      NonBlockingQueue.Push q c item lt =
        (q, { c with mLocalWorkQueue := c.mLocalWorkQueue ++ [item] })) ∧
    ((lt = false ∨ c.mShared = true) →
      NonBlockingQueue.Push q c item lt =
        ({ q with mSharedWorkQueue := q.mSharedWorkQueue ++ [item] }, c)) := by
  constructor
  · intro hlt hsh
    simp [NonBlockingQueue.Push, hlt, hsh]
  · intro h
    rcases h with h | h <;> simp [NonBlockingQueue.Push, h]

/-- Witness for C3: a local-affinity push to a worker context and a push
without the hint, at concrete inputs. -/
theorem c3_push_placement_witness :
    (NonBlockingQueue.Push ⟨YieldStrategy.YIELD_STRATEGY_POLITE, []⟩
        ⟨false, [1], YieldImplementation.init⟩ 7 true =
      (⟨YieldStrategy.YIELD_STRATEGY_POLITE, []⟩,
        ⟨false, [1, 7], YieldImplementation.init⟩)) ∧
    (NonBlockingQueue.Push ⟨YieldStrategy.YIELD_STRATEGY_POLITE, []⟩
        ⟨false, [1], YieldImplementation.init⟩ 7 false =
      (⟨YieldStrategy.YIELD_STRATEGY_POLITE, [7]⟩,
        ⟨false, [1], YieldImplementation.init⟩)) :=
  ⟨(c3_push_placement ⟨YieldStrategy.YIELD_STRATEGY_POLITE, []⟩
      ⟨false, [1], YieldImplementation.init⟩ 7 true).1 rfl rfl,
    (c3_push_placement ⟨YieldStrategy.YIELD_STRATEGY_POLITE, []⟩
      ⟨false, [1], YieldImplementation.init⟩ 7 false).2 (Or.inl rfl)⟩

/-- C6: for a worker context, if `Empty` returns true then (with no push in
between) the immediately following `Pop` returns `none`. -/
theorem c6_empty_sound (q : NonBlockingQueue) (c : ContextType)
    (hw : c.mShared = false) (he : NonBlockingQueue.Empty q c = true) :
    (NonBlockingQueue.Pop q c).1 = none := by
  cases hl : c.mLocalWorkQueue with
  | cons m rest =>
    rw [NonBlockingQueue.Empty, hl, hw] at he
    simp at he
  | nil =>
    cases hs : q.mSharedWorkQueue with
    | cons m rest =>
      rw [NonBlockingQueue.Empty, hs] at he
      simp at he
    | nil =>
      simp [NonBlockingQueue.Pop, hl, hs]

/-- Witness for C6: a worker context over an empty scheduler. -/
theorem c6_empty_sound_witness :
    (NonBlockingQueue.Pop ⟨YieldStrategy.YIELD_STRATEGY_POLITE, []⟩
      ⟨false, [], YieldImplementation.init⟩).1 = none :=
  c6_empty_sound ⟨YieldStrategy.YIELD_STRATEGY_POLITE, []⟩
    ⟨false, [], YieldImplementation.init⟩ rfl rfl

/-- C7: every `Pop` that returns an item resets the calling context's
backoff state to its baseline (the `Reset` state, escalation counter 0),
and every `Pop` that returns `none` executes exactly one backoff escalation
step (the counter advances by exactly one). -/
theorem c7_backoff_discipline (q : NonBlockingQueue) (c : ContextType) :
    (∀ m, (NonBlockingQueue.Pop q c).1 = some m →
      (NonBlockingQueue.Pop q c).2.2.mYield = c.mYield.Reset ∧
      (NonBlockingQueue.Pop q c).2.2.mYield.mCounter = 0) ∧
    ((NonBlockingQueue.Pop q c).1 = none →
      (NonBlockingQueue.Pop q c).2.2.mYield = c.mYield.Execute ∧
      (NonBlockingQueue.Pop q c).2.2.mYield.mCounter = c.mYield.mCounter + 1) := by
  cases hl : c.mLocalWorkQueue with
  | cons m rest =>
    constructor
    · intro m' _
      simp [NonBlockingQueue.Pop, hl, YieldImplementation.Reset]
    · intro hnone
      simp [NonBlockingQueue.Pop, hl] at hnone
  | nil =>
    cases hs : q.mSharedWorkQueue with
    | cons m rest =>
      constructor
      · intro m' _
        simp [NonBlockingQueue.Pop, hl, hs, YieldImplementation.Reset]
      · intro hnone
        simp [NonBlockingQueue.Pop, hl, hs] at hnone
    | nil =>
      constructor
      · intro m' hsome
        simp [NonBlockingQueue.Pop, hl, hs] at hsome
      · intro _
        simp [NonBlockingQueue.Pop, hl, hs, YieldImplementation.Execute]

/-- Witness for C7: a successful pop resets an escalated counter to 0; a
failed pop advances the counter from 3 to 4. -/
theorem c7_backoff_discipline_witness :
    ((NonBlockingQueue.Pop ⟨YieldStrategy.YIELD_STRATEGY_POLITE, []⟩
        ⟨false, [5], ⟨YieldFunc.YieldPolite, 3⟩⟩).2.2.mYield.mCounter = 0) ∧
    ((NonBlockingQueue.Pop ⟨YieldStrategy.YIELD_STRATEGY_POLITE, []⟩
        ⟨false, [], ⟨YieldFunc.YieldPolite, 3⟩⟩).2.2.mYield.mCounter = 3 + 1) :=
  ⟨((c7_backoff_discipline ⟨YieldStrategy.YIELD_STRATEGY_POLITE, []⟩
      ⟨false, [5], ⟨YieldFunc.YieldPolite, 3⟩⟩).1 5 rfl).2,
    ((c7_backoff_discipline ⟨YieldStrategy.YIELD_STRATEGY_POLITE, []⟩
      ⟨false, [], ⟨YieldFunc.YieldPolite, 3⟩⟩).2 rfl).2⟩

/-- C8: `InitializeWorkerContext` clears the shared flag and installs the
yield curve matching the scheduler's strategy selector for the three
recognized values, and the polite curve for every unrecognized value. -/
theorem c8_worker_init (q : NonBlockingQueue) (c : ContextType) :
    (NonBlockingQueue.InitializeWorkerContext q c).mShared = false ∧
    (q.mYieldStrategy = YieldStrategy.YIELD_STRATEGY_POLITE →
      (NonBlockingQueue.InitializeWorkerContext q c).mYield.mYieldFunction =
        YieldFunc.YieldPolite) ∧
    (q.mYieldStrategy = YieldStrategy.YIELD_STRATEGY_STRONG →
      (NonBlockingQueue.InitializeWorkerContext q c).mYield.mYieldFunction =
        YieldFunc.YieldStrong) ∧
    (q.mYieldStrategy = YieldStrategy.YIELD_STRATEGY_AGGRESSIVE →
      (NonBlockingQueue.InitializeWorkerContext q c).mYield.mYieldFunction =
        YieldFunc.YieldAggressive) ∧
    (∀ v, q.mYieldStrategy = YieldStrategy.YIELD_STRATEGY_UNRECOGNIZED v →
      (NonBlockingQueue.InitializeWorkerContext q c).mYield.mYieldFunction =
        YieldFunc.YieldPolite) := by
  refine ⟨rfl, ?_, ?_, ?_, ?_⟩ <;>
    first
      | (intro h;
         simp [NonBlockingQueue.InitializeWorkerContext, h,
           YieldImplementation.SetYieldFunction])
      | (intro v h;
         simp [NonBlockingQueue.InitializeWorkerContext, h,
           YieldImplementation.SetYieldFunction])

/-- Witness for C8: initialization under the strong strategy and under an
unrecognized strategy value. -/
theorem c8_worker_init_witness :
    ((NonBlockingQueue.InitializeWorkerContext
        ⟨YieldStrategy.YIELD_STRATEGY_STRONG, []⟩
        ContextType.init).mYield.mYieldFunction = YieldFunc.YieldStrong) ∧
    ((NonBlockingQueue.InitializeWorkerContext
        ⟨YieldStrategy.YIELD_STRATEGY_UNRECOGNIZED 42, []⟩
        ContextType.init).mYield.mYieldFunction = YieldFunc.YieldPolite) :=
  ⟨(c8_worker_init ⟨YieldStrategy.YIELD_STRATEGY_STRONG, []⟩
      ContextType.init).2.2.1 rfl,
    (c8_worker_init ⟨YieldStrategy.YIELD_STRATEGY_UNRECOGNIZED 42, []⟩
      ContextType.init).2.2.2.2 42 rfl⟩

/-- C9: `WakeAll`, `ReleaseSharedContext` and `ReleaseWorkerContext` leave
the whole scheduler state and the given context completely unchanged. -/
theorem c9_noop_operations (q : NonBlockingQueue) (c : ContextType) :
    NonBlockingQueue.WakeAll q = q ∧
    NonBlockingQueue.ReleaseSharedContext q c = (q, c) ∧
    NonBlockingQueue.ReleaseWorkerContext q c = (q, c) :=
  ⟨rfl, rfl, rfl⟩

/-!
FIFO round-trip (C4).
-/

/-- Pushing a list with the local-affinity hint into a worker context
appends it, in order, at the tail of that context's local queue and leaves
the scheduler untouched. -/
theorem pushList_local (items : List Nat) (q : NonBlockingQueue)
    (c : ContextType) (hsh : c.mShared = false) :
    pushList q c items true =
      (q, { c with mLocalWorkQueue := c.mLocalWorkQueue ++ items }) := by
  induction items generalizing c with
  | nil => simp [pushList]
  | cons item rest ih =>
    rw [pushList]
    simp only [NonBlockingQueue.Push, hsh, Bool.not_false, Bool.and_true, if_true]
    rw [ih _ rfl]
    simp

/-- Pushing a list without the local-affinity hint appends it, in order, at
the tail of the shared queue and leaves the context untouched. -/
theorem pushList_shared (items : List Nat) (q : NonBlockingQueue)
    (c : ContextType) :
    pushList q c items false =
      ({ q with mSharedWorkQueue := q.mSharedWorkQueue ++ items }, c) := by
  induction items generalizing q with
  | nil => simp [pushList]
  | cons item rest ih =>
    rw [pushList]
    simp only [NonBlockingQueue.Push, Bool.false_and, Bool.false_eq_true, if_false]
    rw [ih]
    simp

/-- Performing `k` consecutive pops on one context return the first `k` items of its
local queue followed by the shared queue. -/
theorem popN_take (k : Nat) (q : NonBlockingQueue) (c : ContextType) :
    (popN q c k).1 = (c.mLocalWorkQueue ++ q.mSharedWorkQueue).take k := by
  induction k generalizing q c with
  | zero => simp [popN]
  | succ k ih =>
    cases hl : c.mLocalWorkQueue with
    | cons m rest =>
      rw [popN]
      simp [NonBlockingQueue.Pop, hl, ih]
    | nil =>
      cases hs : q.mSharedWorkQueue with
      | nil =>
        rw [popN]
        simp [NonBlockingQueue.Pop, hl, hs, ih]
      | cons m rest =>
        rw [popN]
        simp [NonBlockingQueue.Pop, hl, hs, ih]

/-- C4: within a single queue, items come out in push order.  Pushing any
list with the local hint into one worker context over a fresh scheduler and
popping it to exhaustion returns exactly that list; likewise pushing any
list to the shared queue (via the shared context) and draining it from a
worker returns exactly that list. -/
theorem c4_fifo_roundtrip (strategy : YieldStrategy) (items : List Nat) :
    (let q0 := NonBlockingQueue.construct strategy
     let w := NonBlockingQueue.InitializeWorkerContext q0 ContextType.init
     let p := pushList q0 w items true
     (popN p.1 p.2 items.length).1 = items) ∧
    (let q0 := NonBlockingQueue.construct strategy
     let w := NonBlockingQueue.InitializeWorkerContext q0 ContextType.init
     let sh := NonBlockingQueue.InitializeSharedContext ContextType.init
     let p := pushList q0 sh items false
     (popN p.1 w items.length).1 = items) := by
  constructor
  · show (popN _ _ _).1 = items
    rw [pushList_local items _ _ rfl, popN_take]
    simp [NonBlockingQueue.construct, NonBlockingQueue.InitializeWorkerContext,
      ContextType.init]
  · show (popN _ _ _).1 = items
    rw [pushList_shared items _ _, popN_take]
    simp [NonBlockingQueue.construct, NonBlockingQueue.InitializeWorkerContext,
      ContextType.init]

/-!
Conservation of queued items (C1).
-/

/-- The multiset of a cons cell splits into a singleton plus the tail. -/
theorem coe_cons_split (a : Nat) (l : List Nat) :
    ((a :: l : List Nat) : Multiset Nat) = {a} + (l : Multiset Nat) := by
  rw [← Multiset.coe_singleton, Multiset.coe_add, List.singleton_append]

/-- The multiset of an appended singleton splits off that singleton. -/
theorem coe_append_split (l : List Nat) (a : Nat) :
    ((l ++ [a] : List Nat) : Multiset Nat) = (l : Multiset Nat) + {a} := by
  rw [← Multiset.coe_singleton, Multiset.coe_add]

/-- A `Push` adds exactly the pushed mailbox to the union of the two queues
it may touch. -/
theorem Push_items (q : NonBlockingQueue) (c : ContextType) (item : Nat)
    (lt : Bool) :
    ((NonBlockingQueue.Push q c item lt).1.mSharedWorkQueue : Multiset Nat) +
      ((NonBlockingQueue.Push q c item lt).2.mLocalWorkQueue : Multiset Nat) =
      (q.mSharedWorkQueue : Multiset Nat) +
        (c.mLocalWorkQueue : Multiset Nat) + {item} := by
  cases hb : (lt && !c.mShared) with
  | true =>
    simp only [NonBlockingQueue.Push, hb, if_true]
    rw [coe_append_split]
    abel
  | false =>
    simp only [NonBlockingQueue.Push, hb, Bool.false_eq_true, if_false]
    rw [coe_append_split]
    abel

/-- A `Pop` conserves queued items: what is left in the two queues plus the
retrieved mailbox (if any) is exactly what was queued before. -/
theorem Pop_items (q : NonBlockingQueue) (c : ContextType) :
    ((NonBlockingQueue.Pop q c).2.1.mSharedWorkQueue : Multiset Nat) +
      ((NonBlockingQueue.Pop q c).2.2.mLocalWorkQueue : Multiset Nat) +
      (((NonBlockingQueue.Pop q c).1.toList : List Nat) : Multiset Nat) =
      (q.mSharedWorkQueue : Multiset Nat) +
        (c.mLocalWorkQueue : Multiset Nat) := by
  cases hl : c.mLocalWorkQueue with
  | cons m rest =>
    simp only [NonBlockingQueue.Pop, hl, Option.toList]
    rw [coe_cons_split m rest, Multiset.coe_singleton]
    abel
  | nil =>
    cases hs : q.mSharedWorkQueue with
    | nil => simp [NonBlockingQueue.Pop, hl, hs]
    | cons m rest =>
      simp only [NonBlockingQueue.Pop, hl, hs, Option.toList]
      rw [coe_cons_split m rest, Multiset.coe_singleton]
      abel

/-- Replacing the context at a valid index with one whose local queue grew
by `d` grows the combined local-queue contents by `d`. -/
theorem localsSum_set_grow (l : List ContextType) (i : Nat)
    (c c' : ContextType) (d : Multiset Nat) (h : l[i]? = some c)
    (hd : (c'.mLocalWorkQueue : Multiset Nat) =
      (c.mLocalWorkQueue : Multiset Nat) + d) :
    localsSum (l.set i c') = localsSum l + d := by
  induction l generalizing i with
  | nil => simp at h
  | cons hd₀ tl ih =>
    cases i with
    | zero =>
      simp only [List.getElem?_cons_zero, Option.some.injEq] at h
      subst h
      simp only [List.set, localsSum, List.map_cons, List.sum_cons]
      rw [hd]
      abel
    | succ j =>
      simp only [List.getElem?_cons_succ] at h
      simp only [List.set, localsSum, List.map_cons, List.sum_cons]
      have := ih j h
      simp only [localsSum] at this
      rw [this]
      abel

/-- Replacing the context at a valid index with one whose local queue
shrank by `d` shrinks the combined local-queue contents by `d`. -/
theorem localsSum_set_shrink (l : List ContextType) (i : Nat)
    (c c' : ContextType) (d : Multiset Nat) (h : l[i]? = some c)
    (hd : (c.mLocalWorkQueue : Multiset Nat) =
      (c'.mLocalWorkQueue : Multiset Nat) + d) :
    localsSum (l.set i c') + d = localsSum l := by
  induction l generalizing i with
  | nil => simp at h
  | cons hd₀ tl ih =>
    cases i with
    | zero =>
      simp only [List.getElem?_cons_zero, Option.some.injEq] at h
      subst h
      simp only [List.set, localsSum, List.map_cons, List.sum_cons]
      rw [hd]
      abel
    | succ j =>
      simp only [List.getElem?_cons_succ] at h
      simp only [List.set, localsSum, List.map_cons, List.sum_cons]
      have := ih j h
      simp only [localsSum] at this
      rw [← this]
      abel

/-- Running `runOp` never changes the number of contexts. -/
theorem runOp_contexts_length (s : SysState) (op : Op) :
    (runOp s op).1.contexts.length = s.contexts.length := by
  cases op with
  | push i item lt => cases hc : s.contexts[i]? <;> simp [runOp, hc]
  | pop i => cases hc : s.contexts[i]? <;> simp [runOp, hc]

/-- Bookkeeping identity used to chain one step of conservation with the
conservation of the remaining trace. -/
theorem conservation_chain (A B C S S1 p1 p2 : Multiset Nat)
    (h1 : S1 + B = S + p1) (h2 : A + C = S1 + p2) :
    A + (B + C) = S + (p1 + p2) := by
  calc A + (B + C) = A + C + B := by abel
    _ = S1 + p2 + B := by rw [h2]
    _ = S1 + B + p2 := by abel
    _ = S + p1 + p2 := by rw [h1]
    _ = S + (p1 + p2) := by abel

/-- One operation at a valid context conserves items: the items queued
afterwards plus the popped one (if any) are the items queued before plus
the pushed one (if any). -/
theorem runOp_items (s : SysState) (op : Op)
    (h : Op.index op < s.contexts.length) :
    sysItems (runOp s op).1 +
      (((runOp s op).2.toList.map Prod.snd : List Nat) : Multiset Nat) =
      sysItems s + ((pushedOf [op] : List Nat) : Multiset Nat) := by
  cases op with
  | push i item lt =>
    obtain ⟨c, hc⟩ : ∃ x, s.contexts[i]? = some x :=
      ⟨s.contexts[i], List.getElem?_eq_getElem h⟩
    simp only [runOp, hc, sysItems, pushedOf, Option.toList, List.map_nil,
      Multiset.coe_nil, add_zero, Multiset.coe_singleton]
    cases hb : (lt && !c.mShared) with
    | true =>
      have hgrow := localsSum_set_grow s.contexts i c
        { c with mLocalWorkQueue := c.mLocalWorkQueue ++ [item] }
        {item} hc (coe_append_split c.mLocalWorkQueue item)
      simp only [NonBlockingQueue.Push, hb, if_true]
      rw [hgrow]
      abel
    | false =>
      have hgrow := localsSum_set_grow s.contexts i c c 0 hc (by rw [add_zero])
      simp only [NonBlockingQueue.Push, hb, Bool.false_eq_true, if_false]
      rw [hgrow, add_zero, coe_append_split]
      abel
  | pop i =>
    obtain ⟨c, hc⟩ : ∃ x, s.contexts[i]? = some x :=
      ⟨s.contexts[i], List.getElem?_eq_getElem h⟩
    simp only [runOp, hc, sysItems, pushedOf, Multiset.coe_nil, add_zero]
    cases hl : c.mLocalWorkQueue with
    | cons m rest =>
      have hshrink := localsSum_set_shrink s.contexts i c
        { c with mLocalWorkQueue := rest, mYield := c.mYield.Reset }
        {m} hc
        (by rw [hl]
            show ((m :: rest : List Nat) : Multiset Nat) = ↑rest + {m}
            rw [coe_cons_split m rest]
            abel)
      simp only [NonBlockingQueue.Pop, hl, Option.map_some', Option.toList,
        List.map_cons, List.map_nil, Multiset.coe_singleton]
      rw [add_assoc, hshrink]
    | nil =>
      cases hs : s.queue.mSharedWorkQueue with
      | nil =>
        have hgrow := localsSum_set_grow s.contexts i c
          ⟨c.mShared, [], c.mYield.Execute⟩ 0 hc (by rw [hl, add_zero])
        simp only [NonBlockingQueue.Pop, hl, hs, Option.map_none',
          Option.toList, List.map_nil, Multiset.coe_nil, add_zero]
        rw [hgrow, add_zero]
      | cons m rest =>
        have hgrow := localsSum_set_grow s.contexts i c
          ⟨c.mShared, [], c.mYield.Reset⟩ 0 hc (by rw [hl, add_zero])
        simp only [NonBlockingQueue.Pop, hl, hs, Option.map_some',
          Option.toList, List.map_cons, List.map_nil, Multiset.coe_singleton]
        rw [hgrow, add_zero, coe_cons_split m rest]
        abel

/-- A whole trace of valid operations conserves items: the items still
queued at the end plus all popped mailboxes are exactly the items queued
initially plus all pushed mailboxes. -/
theorem runTrace_items (t : List Op) (s : SysState)
    (hv : ∀ op ∈ t, Op.index op < s.contexts.length) :
    sysItems (runTrace s t).1 +
      (((runTrace s t).2.map Prod.snd : List Nat) : Multiset Nat) =
      sysItems s + ((pushedOf t : List Nat) : Multiset Nat) := by
  induction t generalizing s with
  | nil => simp [runTrace, pushedOf, sysItems]
  | cons op ops ih =>
    have h1 := runOp_items s op (hv op (List.mem_cons_self op ops))
    have h2 := ih (runOp s op).1
      (fun o ho => runOp_contexts_length s op ▸ hv o (List.mem_cons_of_mem op ho))
    have hpo : ((pushedOf (op :: ops) : List Nat) : Multiset Nat) =
        ((pushedOf [op] : List Nat) : Multiset Nat) +
          ((pushedOf ops : List Nat) : Multiset Nat) := by
      cases op with
      | push i item lt =>
        simp only [pushedOf]
        rw [coe_cons_split item (pushedOf ops), Multiset.coe_singleton]
      | pop i => simp [pushedOf]
    rw [runTrace, hpo]
    simp only [List.map_append, Multiset.coe_add]
    exact conservation_chain _ _ _ _ _ _ _ h1 h2

/-- C1: in the interleaving model, across any trace of pushes and pops on
any set of contexts and regardless of local-affinity hints, the multiset of
popped mailboxes never exceeds the multiset of pushed ones (no mailbox is
duplicated), and once every queue has been drained the popped mailboxes are
exactly the pushed ones (no mailbox is lost). -/
theorem c1_no_loss_no_duplication (strategy : YieldStrategy) (n : Nat)
    (t : List Op) (hv : validTrace (n + 1) t = true) :
    (((runTrace (initialSys strategy n) t).2.map Prod.snd : List Nat) :
        Multiset Nat) ≤ ((pushedOf t : List Nat) : Multiset Nat) ∧
    (sysItems (runTrace (initialSys strategy n) t).1 = 0 →
      (((runTrace (initialSys strategy n) t).2.map Prod.snd : List Nat) :
          Multiset Nat) = ((pushedOf t : List Nat) : Multiset Nat)) := by
  have hlen : (initialSys strategy n).contexts.length = n + 1 := by
    simp [initialSys]
  have hv' : ∀ op ∈ t, Op.index op < (initialSys strategy n).contexts.length := by
    rw [hlen]
    intro op hop
    have := List.all_eq_true.mp hv op hop
    exact of_decide_eq_true this
  have key := runTrace_items t (initialSys strategy n) hv'
  have h0 : sysItems (initialSys strategy n) = 0 := by
    simp [sysItems, localsSum, initialSys, NonBlockingQueue.construct,
      NonBlockingQueue.InitializeSharedContext,
      NonBlockingQueue.InitializeWorkerContext, ContextType.init]
  rw [h0, zero_add] at key
  constructor
  · rw [← key]
    exact le_add_self
  · intro hdrain
    rw [hdrain, zero_add] at key
    exact key

/-- Witness for C1: a concrete drained trace with one worker — a local
push, a shared push and three pops retrieve both items exactly once. -/
theorem c1_no_loss_no_duplication_witness :
    ((((runTrace (initialSys YieldStrategy.YIELD_STRATEGY_POLITE 1)
          [Op.push 1 10 true, Op.push 0 20 false, Op.pop 1, Op.pop 1,
            Op.pop 1]).2.map Prod.snd : List Nat) : Multiset Nat) ≤
      ((pushedOf [Op.push 1 10 true, Op.push 0 20 false, Op.pop 1, Op.pop 1,
          Op.pop 1] : List Nat) : Multiset Nat)) ∧
    ((((runTrace (initialSys YieldStrategy.YIELD_STRATEGY_POLITE 1)
          [Op.push 1 10 true, Op.push 0 20 false, Op.pop 1, Op.pop 1,
            Op.pop 1]).2.map Prod.snd : List Nat) : Multiset Nat) =
      ((pushedOf [Op.push 1 10 true, Op.push 0 20 false, Op.pop 1, Op.pop 1,
          Op.pop 1] : List Nat) : Multiset Nat)) :=
  ⟨(c1_no_loss_no_duplication YieldStrategy.YIELD_STRATEGY_POLITE 1
      [Op.push 1 10 true, Op.push 0 20 false, Op.pop 1, Op.pop 1, Op.pop 1]
      (by decide)).1,
    (c1_no_loss_no_duplication YieldStrategy.YIELD_STRATEGY_POLITE 1
      [Op.push 1 10 true, Op.push 0 20 false, Op.pop 1, Op.pop 1, Op.pop 1]
      (by decide)).2 (by decide)⟩

/-!
The shared context's local queue (C10).
-/

/-- A `Push` never changes a context's shared flag. -/
theorem Push_mShared (q : NonBlockingQueue) (c : ContextType) (item : Nat)
    (lt : Bool) :
    (NonBlockingQueue.Push q c item lt).2.mShared = c.mShared := by
  cases hb : (lt && !c.mShared) <;>
    simp [NonBlockingQueue.Push, hb]

/-- A `Pop` never changes a context's shared flag. -/
theorem Pop_mShared (q : NonBlockingQueue) (c : ContextType) :
    (NonBlockingQueue.Pop q c).2.2.mShared = c.mShared := by
  cases hl : c.mLocalWorkQueue with
  | cons m rest => simp [NonBlockingQueue.Pop, hl]
  | nil =>
    cases hs : q.mSharedWorkQueue <;> simp [NonBlockingQueue.Pop, hl, hs]

/-- A `Pop` on a context with an empty local queue leaves it empty. -/
theorem Pop_local_nil (q : NonBlockingQueue) (c : ContextType)
    (h : c.mLocalWorkQueue = []) :
    (NonBlockingQueue.Pop q c).2.2.mLocalWorkQueue = [] := by
  cases hs : q.mSharedWorkQueue <;> simp [NonBlockingQueue.Pop, h, hs]

/-- One operation preserves the invariant that the context at index 0 is
shared with an empty local queue: a push through a shared context goes to
the shared queue, and a pop never fills a local queue. -/
theorem runOp_sharedCtx (s : SysState) (op : Op)
    (h : ∀ c, s.contexts[0]? = some c →
      c.mShared = true ∧ c.mLocalWorkQueue = []) :
    ∀ c, (runOp s op).1.contexts[0]? = some c →
      c.mShared = true ∧ c.mLocalWorkQueue = [] := by
  intro c' hc'
  cases op with
  | push i item lt =>
    cases hc : s.contexts[i]? with
    | none =>
      simp only [runOp, hc] at hc'
      exact h c' hc'
    | some c =>
      simp only [runOp, hc] at hc'
      by_cases hi0 : i = 0
      · subst hi0
        rw [List.getElem?_set_eq_of_lt _ (List.getElem?_eq_some.mp hc).1] at hc'
        injection hc' with hc''
        obtain ⟨hsh, hloc⟩ := h c hc
        have hpush : (NonBlockingQueue.Push s.queue c item lt).2 = c := by
          simp [NonBlockingQueue.Push, hsh]
        rw [hpush] at hc''
        exact hc'' ▸ ⟨hsh, hloc⟩
      · rw [List.getElem?_set_ne hi0] at hc'
        exact h c' hc'
  | pop i =>
    cases hc : s.contexts[i]? with
    | none =>
      simp only [runOp, hc] at hc'
      exact h c' hc'
    | some c =>
      simp only [runOp, hc] at hc'
      by_cases hi0 : i = 0
      · subst hi0
        rw [List.getElem?_set_eq_of_lt _ (List.getElem?_eq_some.mp hc).1] at hc'
        injection hc' with hc''
        obtain ⟨hsh, hloc⟩ := h c hc
        refine hc'' ▸ ⟨?_, ?_⟩
        · rw [Pop_mShared]
          exact hsh
        · exact Pop_local_nil s.queue c hloc
      · rw [List.getElem?_set_ne hi0] at hc'
        exact h c' hc'

/-- A whole trace preserves the shared-context invariant. -/
theorem runTrace_sharedCtx (t : List Op) (s : SysState)
    (h : ∀ c, s.contexts[0]? = some c →
      c.mShared = true ∧ c.mLocalWorkQueue = []) :
    ∀ c, (runTrace s t).1.contexts[0]? = some c →
      c.mShared = true ∧ c.mLocalWorkQueue = [] := by
  induction t generalizing s with
  | nil => exact h
  | cons op ops ih => exact ih (runOp s op).1 (runOp_sharedCtx s op h)

/-- C10: in every state reachable through the public operations, the shared
context (index 0) keeps its shared flag and an empty local queue, and
`Empty` on a shared-flagged context depends only on the shared queue. -/
theorem c10_shared_context_local_empty (strategy : YieldStrategy) (n : Nat)
    (t : List Op) :
    (∀ c, (runTrace (initialSys strategy n) t).1.contexts[0]? = some c →
      c.mShared = true ∧ c.mLocalWorkQueue = []) ∧
    (∀ (q : NonBlockingQueue) (c : ContextType), c.mShared = true →
      NonBlockingQueue.Empty q c = q.mSharedWorkQueue.isEmpty) := by
  constructor
  · apply runTrace_sharedCtx
    intro c hc
    simp only [initialSys, List.getElem?_cons_zero, Option.some.injEq] at hc
    rw [← hc]
    exact ⟨rfl, rfl⟩
  · intro q c hsh
    simp [NonBlockingQueue.Empty, hsh]

/-- Witness for C10: after a concrete trace with a shared-context push and
a worker pop, the shared context still has its flag and an empty local
queue; `Empty` on a shared-flagged context with a non-empty local queue
still reads only the shared queue. -/
theorem c10_shared_context_local_empty_witness :
    ((⟨true, [], YieldImplementation.init⟩ : ContextType).mShared = true ∧
      (⟨true, [], YieldImplementation.init⟩ : ContextType).mLocalWorkQueue =
        []) ∧
    NonBlockingQueue.Empty ⟨YieldStrategy.YIELD_STRATEGY_POLITE, [3]⟩
        ⟨true, [7], YieldImplementation.init⟩ =
      ([3] : List Nat).isEmpty :=
  ⟨(c10_shared_context_local_empty YieldStrategy.YIELD_STRATEGY_POLITE 1
      [Op.push 0 5 true, Op.pop 1]).1 ⟨true, [], YieldImplementation.init⟩
      (by decide),
    (c10_shared_context_local_empty YieldStrategy.YIELD_STRATEGY_POLITE 1
      [Op.push 0 5 true, Op.pop 1]).2
      ⟨YieldStrategy.YIELD_STRATEGY_POLITE, [3]⟩
      ⟨true, [7], YieldImplementation.init⟩ rfl⟩

/-!
Local-affinity isolation (C5).
-/

/-- One operation never changes the shared flag of the context at any
fixed index `i`. -/
theorem runOp_preserves_worker (s : SysState) (op : Op) (i : Nat)
    (hw : ∀ c, s.contexts[i]? = some c → c.mShared = false) :
    ∀ c, (runOp s op).1.contexts[i]? = some c → c.mShared = false := by
  intro c' hc'
  cases op with
  | push j item lt =>
    cases hc : s.contexts[j]? with
    | none =>
      simp only [runOp, hc] at hc'
      exact hw c' hc'
    | some c =>
      simp only [runOp, hc] at hc'
      by_cases hji : j = i
      · subst hji
        rw [List.getElem?_set_eq_of_lt _ (List.getElem?_eq_some.mp hc).1] at hc'
        injection hc' with hc''
        rw [← hc'', Push_mShared]
        exact hw c hc
      · rw [List.getElem?_set_ne hji] at hc'
        exact hw c' hc'
  | pop j =>
    cases hc : s.contexts[j]? with
    | none =>
      simp only [runOp, hc] at hc'
      exact hw c' hc'
    | some c =>
      simp only [runOp, hc] at hc'
      by_cases hji : j = i
      · subst hji
        rw [List.getElem?_set_eq_of_lt _ (List.getElem?_eq_some.mp hc).1] at hc'
        injection hc' with hc''
        rw [← hc'', Pop_mShared]
        exact hw c hc
      · rw [List.getElem?_set_ne hji] at hc'
        exact hw c' hc'

/-- One operation whose push of `item` (if it is one) is a local push at
the worker context `i` keeps `item` out of the shared queue and out of
every other context's local queue, and cannot return `item` at another
context. -/
theorem runOp_locality (s : SysState) (op : Op) (i item : Nat)
    (hw : ∀ c, s.contexts[i]? = some c → c.mShared = false)
    (hfree : itemFree s i item)
    (hop : ∀ j lt, op = Op.push j item lt → j = i ∧ lt = true) :
    itemFree (runOp s op).1 i item ∧
      ∀ j, j ≠ i → (runOp s op).2 ≠ some (j, item) := by
  obtain ⟨hsh, hloc⟩ := hfree
  cases op with
  | push jj x lt =>
    have hxitem : x = item → jj = i ∧ lt = true := fun he =>
      hop jj lt (by rw [he])
    cases hc : s.contexts[jj]? with
    | none =>
      simp only [runOp, hc]
      exact ⟨⟨hsh, hloc⟩, fun j hj => by simp⟩
    | some c =>
      simp only [runOp, hc]
      refine ⟨⟨?_, ?_⟩, fun j hj => by simp⟩
      · cases hb : (lt && !c.mShared) with
        | true => simpa only [NonBlockingQueue.Push, hb, if_true] using hsh
        | false =>
          simp only [NonBlockingQueue.Push, hb, Bool.false_eq_true, if_false]
          intro hmem
          rcases List.mem_append.mp hmem with hm | hm
          · exact hsh hm
          · simp only [List.mem_singleton] at hm
            obtain ⟨hji, hlt⟩ := hxitem hm.symm
            subst hji
            subst hlt
            rw [hw c hc] at hb
            simp at hb
      · intro j hj c' hc'
        by_cases hji : jj = j
        · subst hji
          rw [List.getElem?_set_eq_of_lt _ (List.getElem?_eq_some.mp hc).1] at hc'
          injection hc' with hc''
          cases hb : (lt && !c.mShared) with
          | false =>
            have hkeep : (NonBlockingQueue.Push s.queue c x lt).2 = c := by
              simp [NonBlockingQueue.Push, hb]
            rw [← hc'', hkeep]
            exact hloc jj hj c hc
          | true =>
            have happ : (NonBlockingQueue.Push s.queue c x lt).2 =
                { c with mLocalWorkQueue := c.mLocalWorkQueue ++ [x] } := by
              simp [NonBlockingQueue.Push, hb]
            rw [← hc'', happ]
            intro hmem
            rcases List.mem_append.mp hmem with hm | hm
            · exact hloc jj hj c hc hm
            · simp only [List.mem_singleton] at hm
              exact hj (hxitem hm.symm).1
        · rw [List.getElem?_set_ne hji] at hc'
          exact hloc j hj c' hc'
  | pop jj =>
    cases hc : s.contexts[jj]? with
    | none =>
      simp only [runOp, hc]
      exact ⟨⟨hsh, hloc⟩, fun j hj => by simp⟩
    | some c =>
      simp only [runOp, hc]
      cases hl : c.mLocalWorkQueue with
      | cons m rest =>
        refine ⟨⟨?_, ?_⟩, ?_⟩
        · simpa only [NonBlockingQueue.Pop, hl] using hsh
        · intro j hj c' hc'
          by_cases hji : jj = j
          · subst hji
            rw [List.getElem?_set_eq_of_lt _
              (List.getElem?_eq_some.mp hc).1] at hc'
            injection hc' with hc''
            have hnotm := hloc jj hj c hc
            rw [hl] at hnotm
            rw [← hc'']
            simp only [NonBlockingQueue.Pop, hl]
            exact fun hmem => hnotm (List.mem_cons_of_mem m hmem)
          · rw [List.getElem?_set_ne hji] at hc'
            exact hloc j hj c' hc'
        · intro j hj heq
          simp only [NonBlockingQueue.Pop, hl, Option.map_some',
            Option.some.injEq, Prod.mk.injEq] at heq
          obtain ⟨hjj, hm⟩ := heq
          have hnotm := hloc jj (hjj ▸ hj) c hc
          rw [hl, hm] at hnotm
          exact hnotm (List.mem_cons_self item rest)
      | nil =>
        cases hs : s.queue.mSharedWorkQueue with
        | nil =>
          refine ⟨⟨?_, ?_⟩, ?_⟩
          · simpa only [NonBlockingQueue.Pop, hl, hs] using hsh
          · intro j hj c' hc'
            by_cases hji : jj = j
            · subst hji
              rw [List.getElem?_set_eq_of_lt _
                (List.getElem?_eq_some.mp hc).1] at hc'
              injection hc' with hc''
              rw [← hc'']
              simp [NonBlockingQueue.Pop, hl, hs]
            · rw [List.getElem?_set_ne hji] at hc'
              exact hloc j hj c' hc'
          · intro j hj
            simp [NonBlockingQueue.Pop, hl, hs]
        | cons m rest =>
          have hnotm : item ∉ m :: rest := hs ▸ hsh
          refine ⟨⟨?_, ?_⟩, ?_⟩
          · simp only [NonBlockingQueue.Pop, hl, hs]
            exact fun hmem => hnotm (List.mem_cons_of_mem m hmem)
          · intro j hj c' hc'
            by_cases hji : jj = j
            · subst hji
              rw [List.getElem?_set_eq_of_lt _
                (List.getElem?_eq_some.mp hc).1] at hc'
              injection hc' with hc''
              rw [← hc'']
              simp [NonBlockingQueue.Pop, hl, hs]
            · rw [List.getElem?_set_ne hji] at hc'
              exact hloc j hj c' hc'
          · intro j hj heq
            simp only [NonBlockingQueue.Pop, hl, hs, Option.map_some',
              Option.some.injEq, Prod.mk.injEq] at heq
            obtain ⟨hjj, hm⟩ := heq
            exact hnotm (hm ▸ List.mem_cons_self m rest)

/-- A whole trace whose pushes of `item` are all local pushes at the
worker context `i` never returns `item` at any other context. -/
theorem runTrace_locality (t : List Op) (s : SysState) (i item : Nat)
    (hw : ∀ c, s.contexts[i]? = some c → c.mShared = false)
    (hfree : itemFree s i item)
    (hops : ∀ op ∈ t, ∀ j lt, op = Op.push j item lt → j = i ∧ lt = true) :
    ∀ j, j ≠ i → (j, item) ∉ (runTrace s t).2 := by
  induction t generalizing s with
  | nil =>
    intro j hj
    simp [runTrace]
  | cons op ops ih =>
    intro j hj hmem
    rw [runTrace] at hmem
    have hstep := runOp_locality s op i item hw hfree
      (hops op (List.mem_cons_self op ops))
    rcases List.mem_append.mp hmem with hm | hm
    · cases ho : (runOp s op).2 with
      | none =>
        rw [ho] at hm
        simp at hm
      | some p =>
        rw [ho] at hm
        simp only [Option.toList, List.mem_singleton] at hm
        exact hstep.2 j hj (by rw [ho, hm])
    · exact ih (runOp s op).1 (runOp_preserves_worker s op i hw) hstep.1
        (fun o ho' => hops o (List.mem_cons_of_mem op ho')) j hj hm

/-- C5: an item pushed with the local-affinity hint by a worker context is
only ever returned by pops on that same context; no pop on any other
context retrieves it. -/
theorem c5_local_affinity_isolation (strategy : YieldStrategy) (n : Nat)
    (t : List Op) (i item : Nat) (h1 : 1 ≤ i) (h2 : i ≤ n)
    (hpl : localOnlyPushes i item t = true) :
    ∀ j, j ≠ i → (j, item) ∉ (runTrace (initialSys strategy n) t).2 := by
  apply runTrace_locality
  · intro c hc
    cases i with
    | zero => exact (Nat.not_succ_le_zero 0 h1).elim
    | succ k =>
      simp only [initialSys, List.getElem?_cons_succ] at hc
      rw [List.getElem?_replicate] at hc
      have hkn : k < n := h2
      rw [if_pos hkn] at hc
      injection hc with hc'
      rw [← hc']
      rfl
  · constructor
    · simp [initialSys, NonBlockingQueue.construct]
    · intro j hj c hc
      cases j with
      | zero =>
        simp only [initialSys, List.getElem?_cons_zero,
          Option.some.injEq] at hc
        rw [← hc]
        simp [NonBlockingQueue.InitializeSharedContext, ContextType.init]
      | succ k =>
        simp only [initialSys, List.getElem?_cons_succ] at hc
        rw [List.getElem?_replicate] at hc
        by_cases hkn : k < n
        · rw [if_pos hkn] at hc
          injection hc with hc'
          rw [← hc']
          simp [NonBlockingQueue.InitializeWorkerContext, ContextType.init]
        · rw [if_neg hkn] at hc
          exact (Option.noConfusion hc)
  · intro op hop j lt he
    have hall := List.all_eq_true.mp hpl op hop
    subst he
    simp only [decide_eq_true_eq, Bool.or_eq_true, Bool.and_eq_true,
      decide_not, Bool.not_eq_true', decide_eq_false_iff_not, ne_eq,
      not_not] at hall
    rcases hall with hx | ⟨hji, hlt⟩
    · exact absurd trivial hx
    · exact ⟨hji, hlt⟩

/-- Witness for C5: item 10 pushed locally at worker 1 is never popped at
worker 2, which instead drains the shared queue. -/
theorem c5_local_affinity_isolation_witness :
    (2, 10) ∉ (runTrace (initialSys YieldStrategy.YIELD_STRATEGY_POLITE 2)
      [Op.push 1 10 true, Op.push 0 20 false, Op.pop 2, Op.pop 2]).2 :=
  c5_local_affinity_isolation YieldStrategy.YIELD_STRATEGY_POLITE 2
    [Op.push 1 10 true, Op.push 0 20 false, Op.pop 2, Op.pop 2] 1 10
    (by decide) (by decide) (by decide) 2 (by decide)

end Detail
end Theron
